import Mathlib

/-
Shallow embedding of the ISAHP model (src/pkg/models/isahp.py) over the reals.

Tensors are modelled as functions from Fin indices to real numbers, one index
per tensor axis, in the order of the PyTorch shape.  Boolean masks are
functions into Bool.  Randomness (torch.rand) is modelled as an explicit input
tensor.  The nn.Linear layers are modelled by explicit weight and bias
tensors.  Negative axis numbers are resolved exactly as PyTorch resolves
them against the rank of the argument at the call site.
-/

namespace ISAHP

/-- PyTorch Softplus with parameter beta: the map x to log (1 + exp (beta * x)) / beta. -/
noncomputable def softplus (beta x : ℝ) : ℝ := Real.log (1 + Real.exp (beta * x)) / beta

/-- Logistic sigmoid, the activation of the mu head. -/
noncomputable def sigmoid (x : ℝ) : ℝ := 1 / (1 + Real.exp (-x))

/-- Helper: the first factor of a positive product of naturals is positive. -/
theorem pos_of_mul_pos_left {a b : ℕ} (h : 0 < a * b) : 0 < a := by
  rcases Nat.eq_zero_or_pos a with h0 | h1
  · rw [h0, Nat.zero_mul] at h
    exact absurd h (lt_irrefl 0)
  · exact h1

/-- Helper: the second factor of a positive product of naturals is positive. -/
theorem pos_of_mul_pos_right {a b : ℕ} (h : 0 < a * b) : 0 < b := by
  rcases Nat.eq_zero_or_pos b with h0 | h1
  · rw [h0, Nat.mul_zero] at h
    exact absurd h (lt_irrefl 0)
  · exact h1

/-- Helper: tanh is strictly below 1 on the reals. -/
theorem tanh_lt_one (x : ℝ) : Real.tanh x < 1 := by
  rw [Real.tanh_eq_sinh_div_cosh, div_lt_one (Real.cosh_pos x)]
  exact Real.sinh_lt_cosh x

/-- Helper: tanh is strictly above minus one on the reals. -/
theorem neg_one_lt_tanh (x : ℝ) : -1 < Real.tanh x := by
  rw [Real.tanh_eq_sinh_div_cosh, lt_div_iff₀ (Real.cosh_pos x)]
  have h1 := Real.cosh_add_sinh x
  have h2 := Real.exp_pos x
  nlinarith

/-- Helper: tanh is positive at positive arguments. -/
theorem tanh_pos {x : ℝ} (hx : 0 < x) : 0 < Real.tanh x := by
  rw [Real.tanh_eq_sinh_div_cosh]
  exact div_pos (Real.sinh_pos_iff.mpr hx) (Real.cosh_pos x)

/-- Helper: softplus with positive beta is nonnegative. -/
theorem softplus_nonneg {beta : ℝ} (hb : 0 < beta) (x : ℝ) : 0 ≤ softplus beta x := by
  unfold softplus
  have h1 : (1 : ℝ) < 1 + Real.exp (beta * x) := by
    have := Real.exp_pos (beta * x)
    linarith
  exact le_of_lt (div_pos (Real.log_pos h1) hb)

/-- subsequent_mask from the source: np.triu(np.ones, k=1) puts a one exactly at
entries with column index at least row index plus one, and the returned mask is
its complement, comparing with zero. -/
def subsequent_mask (size : ℕ) : Fin size → Fin size → Bool :=
  fun i j => ! decide ((i : ℕ) + 1 ≤ (j : ℕ))

namespace MaskBatch

/-- The padding test tgt != pad applied entrywise, before the unsqueeze. -/
def padding_valid {α : Type} [DecidableEq α] {B L : ℕ}
    (tgt : Fin B → Fin L → α) (pad : α) : Fin B → Fin L → Bool :=
  fun b p => decide (tgt b p ≠ pad)

/-- make_std_mask from the source: the padding row (tgt != pad).unsqueeze(-2),
broadcast over the first pairwise axis, conjoined with its transpose and with
subsequent_mask of the sequence length. -/
def make_std_mask {α : Type} [DecidableEq α] {B L : ℕ}
    (tgt : Fin B → Fin L → α) (pad : α) : Fin B → Fin L → Fin L → Bool :=
  fun b i j =>
    (padding_valid tgt pad b j && padding_valid tgt pad b i) && subsequent_mask L i j

end MaskBatch

namespace Attention

/-- Scaled dot product scores: matmul of query with the transposed key over the
head dimension, divided by the square root of the head dimension. -/
noncomputable def scores {B H T D : ℕ}
    (query key : Fin B → Fin H → Fin T → Fin D → ℝ) :
    Fin B → Fin H → Fin T → Fin T → ℝ :=
  fun b h i j => (∑ c, query b h i c * key b h j c) / Real.sqrt (D : ℝ)

/-- scores.masked_fill(mask == 0., -1e9): where the mask is false the score is
replaced by the large negative sentinel.  The mask handed down from
MultiHeadedAttention is unsqueezed at dimension 1 and therefore broadcast over
heads, so it carries no head index here. -/
noncomputable def masked_scores {B H T D : ℕ}
    (query key : Fin B → Fin H → Fin T → Fin D → ℝ)
    (mask : Fin B → Fin T → Fin T → Bool) :
    Fin B → Fin H → Fin T → Fin T → ℝ :=
  fun b h i j => if mask b i j then scores query key b h i j else -1e9

/-- F.softmax along the last dimension of a rank four tensor. -/
noncomputable def softmax_last {B H T : ℕ}
    (s : Fin B → Fin H → Fin T → Fin T → ℝ) :
    Fin B → Fin H → Fin T → Fin T → ℝ :=
  fun b h i j => Real.exp (s b h i j) / ∑ l, Real.exp (s b h i l)

/-- The attention probabilities p_attn of Attention.forward: softmax over keys
of the sentinel masked scores, then masked_fill(mask == 0., 0.) forcing the
probability at masked positions to exactly zero.  The dropout argument of
Attention.forward is never used in its body, so it does not appear here. -/
noncomputable def p_attn {B H T D : ℕ}
    (query key : Fin B → Fin H → Fin T → Fin D → ℝ)
    (mask : Fin B → Fin T → Fin T → Bool) :
    Fin B → Fin H → Fin T → Fin T → ℝ :=
  fun b h i j =>
    if mask b i j then softmax_last (masked_scores query key mask) b h i j else 0

/-- The first return value of Attention.forward: torch.matmul(p_attn, value). -/
noncomputable def attn_output {B H T D : ℕ}
    (query key value : Fin B → Fin H → Fin T → Fin D → ℝ)
    (mask : Fin B → Fin T → Fin T → Bool) :
    Fin B → Fin H → Fin T → Fin D → ℝ :=
  fun b h i c => ∑ j, p_attn query key mask b h i j * value b h j c

end Attention

/-- Elementwise product of two rank four tensors. -/
noncomputable def mul4 {B T K : ℕ}
    (X Y : Fin B → Fin T → Fin T → Fin K → ℝ) :
    Fin B → Fin T → Fin T → Fin K → ℝ :=
  fun b i j k => X b i j k * Y b i j k

/-- Elementwise exponential of a rank four tensor. -/
noncomputable def exp4 {B T K : ℕ}
    (X : Fin B → Fin T → Fin T → Fin K → ℝ) :
    Fin B → Fin T → Fin T → Fin K → ℝ :=
  fun b i j k => Real.exp (X b i j k)

/-- Elementwise negation of a rank four tensor. -/
noncomputable def neg4 {B T K : ℕ}
    (X : Fin B → Fin T → Fin T → Fin K → ℝ) :
    Fin B → Fin T → Fin T → Fin K → ℝ :=
  fun b i j k => -X b i j k

/-- Broadcast of a rank three tensor along a new trailing axis, the
dt_arr[:, :, :, None] unsqueeze at the state_decay call sites. -/
def unsqueeze_last {B T K : ℕ}
    (dt : Fin B → Fin T → Fin T → ℝ) :
    Fin B → Fin T → Fin T → Fin K → ℝ :=
  fun b i j _ => dt b i j

/-- torch.sum(X, -3) on a rank four tensor: the negative axis resolves to
dimension 1, the first of the two pairwise axes. -/
noncomputable def sum_dim1 {B T K : ℕ}
    (X : Fin B → Fin T → Fin T → Fin K → ℝ) :
    Fin B → Fin T → Fin K → ℝ :=
  fun b j k => ∑ i, X b i j k

/-- state_decay of InstancewiseSelfAttentiveHawkesProcesses at its rank four
call sites (the observed gap evaluations): tanh of v_mu plus
torch.sum(v_alpha * v_gamma * exp(-v_gamma * dt_arr), -3), where -3 resolves
to dimension 1 of the rank four product. -/
noncomputable def state_decay {B T K : ℕ}
    (v_mu : Fin B → Fin T → Fin K → ℝ)
    (v_alpha v_gamma : Fin B → Fin T → Fin T → Fin K → ℝ)
    (dt_arr : Fin B → Fin T → Fin T → ℝ) :
    Fin B → Fin T → Fin K → ℝ :=
  fun b j k =>
    Real.tanh (v_mu b j k +
      sum_dim1 (mul4 (mul4 v_alpha v_gamma)
        (exp4 (mul4 (neg4 v_gamma) (unsqueeze_last dt_arr)))) b j k)

/-- Modelled from the wording of the specification for comparison: the closed
form with the sum running over the key position axis j, as written in section 3
of the specification.  This is the comparison definition for claim C1 and is
not translated from the source. -/
noncomputable def state_decay_spec {B T K : ℕ}
    (v_mu : Fin B → Fin T → Fin K → ℝ)
    (v_alpha v_gamma : Fin B → Fin T → Fin T → Fin K → ℝ)
    (dt_arr : Fin B → Fin T → Fin T → ℝ) :
    Fin B → Fin T → Fin K → ℝ :=
  fun b i k =>
    Real.tanh (v_mu b i k +
      ∑ j, v_alpha b i j k * v_gamma b i j k *
        Real.exp (-v_gamma b i j k * dt_arr b i j))

/-- state_decay at its rank five call site inside _eval_nll, where the inputs
carry an extra trailing Monte Carlo axis: there torch.sum(..., -3) resolves to
dimension 2 of the rank five product, the key position axis.  The unsqueezed
singleton axes of the call are contracted away by broadcasting. -/
noncomputable def state_decay_mc {B T K S : ℕ}
    (v_mu : Fin B → Fin T → Fin K → ℝ)
    (v_alpha v_gamma : Fin B → Fin T → Fin T → Fin K → ℝ)
    (taus : Fin B → Fin T → Fin T → Fin S → ℝ) :
    Fin B → Fin T → Fin K → Fin S → ℝ :=
  fun b i k s =>
    Real.tanh (v_mu b i k +
      ∑ j, v_alpha b i j k * v_gamma b i j k *
        Real.exp (-v_gamma b i j k * taus b i j s))

namespace MultiHeadedAttention

/-- The constructor assertion of MultiHeadedAttention: assert d_model % h == 0. -/
def init_ok (h d_model : ℕ) : Bool := d_model % h == 0

/-- self.d_k = d_model // h. -/
def d_k_of (h d_model : ℕ) : ℕ := d_model / h

/-- in_features of alpha_layer and gamma_layer, int(self.d_k * self.h / 2),
Python float division truncated back to an integer, which is floor division
on naturals. -/
def halfhead_in_features (h d_model : ℕ) : ℕ := d_k_of h d_model * h / 2

/-- Trailing width of the tensor actually fed to alpha_layer in forward: the
first h / 2 heads of the attn times value product, flattened together with the
head dimension by the contiguous view. -/
def alpha_fed_width (h d_model : ℕ) : ℕ := h / 2 * d_k_of h d_model

/-- Trailing width of the tensor fed to gamma_layer: the remaining heads. -/
def gamma_fed_width (h d_model : ℕ) : ℕ := (h - h / 2) * d_k_of h d_model

/-- nn.Linear multiplies against a weight of shape (out_features, in_features)
and accepts its input only when the trailing width equals in_features, raising
a runtime shape error otherwise; forward therefore runs on the alpha and gamma
branches exactly under this condition. -/
def forward_widths_ok (h d_model : ℕ) : Bool :=
  (alpha_fed_width h d_model == halfhead_in_features h d_model) &&
  (gamma_fed_width h d_model == halfhead_in_features h d_model)

/-- The learned tensors of MultiHeadedAttention for an even head count
h = 2 * m and head dimension dk, so that d_model = 2 * m * dk.  Each linear
layer is stored as an (out_features, in_features) weight function together
with its bias vector. -/
structure Weights (m dk K : ℕ) where
  wq : Fin (2 * m * dk) → Fin (2 * m * dk) → ℝ
  bq : Fin (2 * m * dk) → ℝ
  wk : Fin (2 * m * dk) → Fin (2 * m * dk) → ℝ
  bk : Fin (2 * m * dk) → ℝ
  wv : Fin (2 * m * dk) → Fin (2 * m * dk) → ℝ
  bv : Fin (2 * m * dk) → ℝ
  wa : Fin K → Fin (halfhead_in_features (2 * m) (2 * m * dk)) → ℝ
  ba : Fin K → ℝ
  wg : Fin K → Fin (halfhead_in_features (2 * m) (2 * m * dk)) → ℝ
  bg : Fin K → ℝ
  wm : Fin K → Fin (2 * m * dk) → ℝ
  bm : Fin K → ℝ

/-- Position of head g, channel c inside the flat model dimension, the layout
used by l(x).view(batch_size, -1, h, d_k).transpose(1, 2). -/
def headSlice {h dk : ℕ} (g : Fin h) (c : Fin dk) : Fin (h * dk) :=
  ⟨(g : ℕ) * dk + (c : ℕ), by
    have h2 : (g : ℕ) * dk + (c : ℕ) < ((g : ℕ) + 1) * dk := by
      rw [Nat.add_one_mul]
      exact Nat.add_lt_add_left c.isLt _
    exact lt_of_lt_of_le h2 (Nat.mul_le_mul_right dk g.isLt)⟩

/-- One of the three projections l(x).view(batch_size, -1, h, d_k)
followed by transpose(1, 2): a linear layer, then the model dimension split
into heads. -/
noncomputable def proj_heads {B T h dk : ℕ}
    (W : Fin (h * dk) → Fin (h * dk) → ℝ) (bias : Fin (h * dk) → ℝ)
    (x : Fin B → Fin T → Fin (h * dk) → ℝ) :
    Fin B → Fin h → Fin T → Fin dk → ℝ :=
  fun b g t c => (∑ d, W (headSlice g c) d * x b t d) + bias (headSlice g c)

/-- The entrywise product of torch.repeat_interleave(attn.unsqueeze(-1), d_k, -1)
with torch.repeat_interleave(value.unsqueeze(2), T, 2): attention probabilities
broadcast along channels times value rows broadcast along query positions. -/
noncomputable def attn_value_product {B h T dk : ℕ}
    (attn : Fin B → Fin h → Fin T → Fin T → ℝ)
    (value : Fin B → Fin h → Fin T → Fin dk → ℝ) :
    Fin B → Fin h → Fin T → Fin T → Fin dk → ℝ :=
  fun b g i j c => attn b g i j * value b g j c

/-- The contiguous().view(batch_size, T, T, -1) reshape of a (B, n, T, T, dk)
tensor: the target entry whose flat offset inside its batch row is f reads the
source entry at the same flat offset of the contiguous source layout.  For
n > 1 this interleaves the head and pairwise axes rather than permuting them;
the embedding reproduces that layout faithfully. -/
noncomputable def view_bttx {B T n dk : ℕ}
    (P : Fin B → Fin n → Fin T → Fin T → Fin dk → ℝ) :
    Fin B → Fin T → Fin T → Fin (n * dk) → ℝ :=
  fun b x y z =>
    P b
      ⟨(((x : ℕ) * T + (y : ℕ)) * (n * dk) + (z : ℕ)) / (T * T * dk) % n,
        Nat.mod_lt _ (pos_of_mul_pos_left z.pos)⟩
      ⟨(((x : ℕ) * T + (y : ℕ)) * (n * dk) + (z : ℕ)) / (T * dk) % T,
        Nat.mod_lt _ x.pos⟩
      ⟨(((x : ℕ) * T + (y : ℕ)) * (n * dk) + (z : ℕ)) / dk % T,
        Nat.mod_lt _ x.pos⟩
      ⟨(((x : ℕ) * T + (y : ℕ)) * (n * dk) + (z : ℕ)) % dk,
        Nat.mod_lt _ (pos_of_mul_pos_right z.pos)⟩

/-- attn_repeat[:, :h/2] for even h = 2 * m: the first m heads. -/
noncomputable def first_half {B T m dk : ℕ}
    (P : Fin B → Fin (2 * m) → Fin T → Fin T → Fin dk → ℝ) :
    Fin B → Fin m → Fin T → Fin T → Fin dk → ℝ :=
  fun b g => P b ⟨(g : ℕ), by have := g.isLt; omega⟩

/-- attn_repeat[:, h/2:] for even h = 2 * m: the last m heads. -/
noncomputable def second_half {B T m dk : ℕ}
    (P : Fin B → Fin (2 * m) → Fin T → Fin T → Fin dk → ℝ) :
    Fin B → Fin m → Fin T → Fin T → Fin dk → ℝ :=
  fun b g => P b ⟨m + (g : ℕ), by have := g.isLt; omega⟩

/-- The flattened width of m half heads agrees with the declared in_features
of alpha_layer and gamma_layer when the head count is the even number 2 * m. -/
theorem half_width_eq (m dk : ℕ) :
    m * dk = halfhead_in_features (2 * m) (2 * m * dk) := by
  unfold halfhead_in_features d_k_of
  rcases Nat.eq_zero_or_pos m with h0 | h1
  · subst h0
    simp
  · rw [Nat.mul_div_cancel_left dk (by omega : 0 < 2 * m)]
    have h2 : dk * (2 * m) = 2 * (m * dk) := by ring
    rw [h2, Nat.mul_div_cancel_left (m * dk) (by omega : 0 < 2)]

/-- The attention probabilities computed inside MultiHeadedAttention.forward
from the projected query and key, with the mask broadcast over heads. -/
noncomputable def mha_attn {B T m dk K : ℕ} (w : Weights m dk K)
    (x_q x_k : Fin B → Fin T → Fin (2 * m * dk) → ℝ)
    (mask : Fin B → Fin T → Fin T → Bool) :
    Fin B → Fin (2 * m) → Fin T → Fin T → ℝ :=
  Attention.p_attn (proj_heads w.wq w.bq x_q) (proj_heads w.wk w.bk x_k) mask

/-- v_alpha of MultiHeadedAttention.forward for h = 2 * m: the first half of
the heads of the attn times value product, reshaped by the contiguous view,
fed through alpha_layer (linear into the type dimension, then Softplus with
beta 1), then masked_fill of the permuted mask forcing masked pairs to zero. -/
noncomputable def mha_v_alpha {B T m dk K : ℕ} (w : Weights m dk K)
    (x_q x_k x_v : Fin B → Fin T → Fin (2 * m * dk) → ℝ)
    (mask : Fin B → Fin T → Fin T → Bool) :
    Fin B → Fin T → Fin T → Fin K → ℝ :=
  fun b x y k =>
    if mask b x y then
      softplus 1 ((∑ z, w.wa k (Fin.cast (half_width_eq m dk) z) *
        view_bttx (first_half (attn_value_product (mha_attn w x_q x_k mask)
          (proj_heads w.wv w.bv x_v))) b x y z) + w.ba k)
    else 0

/-- v_gamma of MultiHeadedAttention.forward for h = 2 * m: as mha_v_alpha but
on the second half of the heads, through gamma_layer with Softplus beta 10. -/
noncomputable def mha_v_gamma {B T m dk K : ℕ} (w : Weights m dk K)
    (x_q x_k x_v : Fin B → Fin T → Fin (2 * m * dk) → ℝ)
    (mask : Fin B → Fin T → Fin T → Bool) :
    Fin B → Fin T → Fin T → Fin K → ℝ :=
  fun b x y k =>
    if mask b x y then
      softplus 10 ((∑ z, w.wg k (Fin.cast (half_width_eq m dk) z) *
        view_bttx (second_half (attn_value_product (mha_attn w x_q x_k mask)
          (proj_heads w.wv w.bv x_v))) b x y z) + w.bg k)
    else 0

/-- v_mu of MultiHeadedAttention.forward: the attention weighted value rows,
transposed back and flattened to the model dimension, fed through mu_layer
(linear into the type dimension followed by Sigmoid). -/
noncomputable def mha_v_mu {B T m dk K : ℕ} (w : Weights m dk K)
    (x_q x_k x_v : Fin B → Fin T → Fin (2 * m * dk) → ℝ)
    (mask : Fin B → Fin T → Fin T → Bool) :
    Fin B → Fin T → Fin K → ℝ :=
  fun b t k =>
    sigmoid ((∑ d, w.wm k d *
      Attention.attn_output (proj_heads w.wq w.bq x_q) (proj_heads w.wk w.bk x_k)
        (proj_heads w.wv w.bv x_v) mask b
          ⟨(d : ℕ) / dk % (2 * m), Nat.mod_lt _ (pos_of_mul_pos_left d.pos)⟩ t
          ⟨(d : ℕ) % dk, Nat.mod_lt _ (pos_of_mul_pos_right d.pos)⟩) + w.bm k)

end MultiHeadedAttention

/-- Constructor parameters of InstancewiseSelfAttentiveHawkesProcesses. -/
structure Config where
  n_types : ℕ
  embedding_dim : ℕ
  hidden_size : ℕ
  num_head : ℕ

/-- Construction of InstancewiseSelfAttentiveHawkesProcesses: __init__ builds
MultiHeadedAttention(h = num_head, d_model = hidden_size), whose assert
d_model % h == 0 runs at construction time, before any forward pass; a failed
assert aborts construction, so no model value is produced. -/
def isahp_init (n_types embedding_dim hidden_size num_head : ℕ) : Option Config :=
  if MultiHeadedAttention.init_ok num_head hidden_size then
    some ⟨n_types, embedding_dim, hidden_size, num_head⟩
  else none

/-- The zero padded timestamp row self.ts = F.pad(event_seqs[:, :, 0], (1, 0))
of a batch with T + 1 events per padded sequence. -/
noncomputable def ts_pad {B T : ℕ} (t : Fin B → Fin (T + 1) → ℝ) :
    Fin B → Fin (T + 2) → ℝ :=
  fun b p => if h : (p : ℕ) = 0 then 0 else t b ⟨(p : ℕ) - 1, by have := p.isLt; omega⟩

/-- The per step features of InstancewiseSelfAttentiveHawkesProcesses.forward
in the non one hot mode: the inter event gap for channel 0 (the final gap is
dropped) concatenated with the bias free embedding of the one hot type of each
event except the last, for a model with hidden size 2 * m * dk. -/
noncomputable def isahp_feat {B T m dk K : ℕ}
    (We : Fin (2 * m * dk - 1) → Fin K → ℝ)
    (t : Fin B → Fin (T + 1) → ℝ) (ty : Fin B → Fin (T + 1) → Fin K) :
    Fin B → Fin T → Fin (2 * m * dk) → ℝ :=
  fun b i d =>
    if h0 : (d : ℕ) = 0 then
      ts_pad t b ⟨(i : ℕ) + 1, by have := i.isLt; omega⟩ -
        ts_pad t b ⟨(i : ℕ), by have := i.isLt; omega⟩
    else
      ∑ k, We ⟨(d : ℕ) - 1, by have := d.isLt; omega⟩ k *
        (if ty b i.castSucc = k then 1 else 0)

/-- InstancewiseSelfAttentiveHawkesProcesses.forward for an even head count
2 * m: build the features, then run the multi head projector with
query = key = value = feat under the given source mask, returning the triple
(v_mu, v_alpha, v_gamma). -/
noncomputable def isahp_forward {B T m dk K : ℕ}
    (w : MultiHeadedAttention.Weights m dk K)
    (We : Fin (2 * m * dk - 1) → Fin K → ℝ)
    (t : Fin B → Fin (T + 1) → ℝ) (ty : Fin B → Fin (T + 1) → Fin K)
    (src_mask : Fin B → Fin T → Fin T → Bool) :
    (Fin B → Fin T → Fin K → ℝ) × (Fin B → Fin T → Fin T → Fin K → ℝ) ×
      (Fin B → Fin T → Fin T → Fin K → ℝ) :=
  (MultiHeadedAttention.mha_v_mu w (isahp_feat We t ty) (isahp_feat We t ty)
      (isahp_feat We t ty) src_mask,
   MultiHeadedAttention.mha_v_alpha w (isahp_feat We t ty) (isahp_feat We t ty)
      (isahp_feat We t ty) src_mask,
   MultiHeadedAttention.mha_v_gamma w (isahp_feat We t ty) (isahp_feat We t ty)
      (isahp_feat We t ty) src_mask)

/-- Pairwise elapsed times torch.tril(torch.cdist(seq, seq, p=2))[:, 1:, :-1]
over the raw timestamp column of a batch with T + 1 events per sequence:
entry (i, j) is the Euclidean distance between timestamps i + 1 and j when
j ≤ i + 1, the part kept by the lower triangle before the slice, and zero
otherwise. -/
noncomputable def dt_arr {B T : ℕ} (t : Fin B → Fin (T + 1) → ℝ) :
    Fin B → Fin T → Fin T → ℝ :=
  fun b i j => if (j : ℕ) ≤ (i : ℕ) + 1 then |t b i.succ - t b j.castSucc| else 0

/-- dt_seq, the main diagonal of dt_arr: the gap to the immediately preceding
event. -/
noncomputable def dt_seq {B T : ℕ} (t : Fin B → Fin (T + 1) → ℝ) :
    Fin B → Fin T → ℝ :=
  fun b i => dt_arr t b i i

/-- dt_meta: dt_seq replicated across the key axis, lower triangularised, then
masked_fill(src_mask == 0., 0.). -/
noncomputable def dt_meta {B T : ℕ} (t : Fin B → Fin (T + 1) → ℝ)
    (src_mask : Fin B → Fin T → Fin T → Bool) :
    Fin B → Fin T → Fin T → ℝ :=
  fun b i j => if (j : ℕ) ≤ (i : ℕ) ∧ src_mask b i j then dt_seq t b i else 0

/-- dt_offset: the residual dt_arr - dt_meta, masked_fill(src_mask == 0., 0.). -/
noncomputable def dt_offset {B T : ℕ} (t : Fin B → Fin (T + 1) → ℝ)
    (src_mask : Fin B → Fin T → Fin T → Bool) :
    Fin B → Fin T → Fin T → ℝ :=
  fun b i j => if src_mask b i j then dt_arr t b i j - dt_meta t src_mask b i j else 0

/-- The one hot mask of the true event types,
F.one_hot(event_seqs[:, 1:, 1], n_types) as a real tensor. -/
noncomputable def type_mask_nll {B T K : ℕ} (ty : Fin B → Fin (T + 1) → Fin K) :
    Fin B → Fin T → Fin K → ℝ :=
  fun b i k => if ty b i.succ = k then 1 else 0

/-- The log likelihood sub term of _eval_nll: per step per type intensities
from state_decay at the observed elapsed times, log, multiplied with the one
hot type mask and summed over types, then masked_select by the validity mask
and summed over steps and batch. -/
noncomputable def log_sum_term {B T K : ℕ} (t : Fin B → Fin (T + 1) → ℝ)
    (ty : Fin B → Fin (T + 1) → Fin K) (mask : Fin B → Fin T → Bool)
    (v_mu : Fin B → Fin T → Fin K → ℝ)
    (v_alpha v_gamma : Fin B → Fin T → Fin T → Fin K → ℝ) : ℝ :=
  ∑ b, ∑ i,
    if mask b i then
      ∑ k, Real.log (state_decay v_mu v_alpha v_gamma (dt_arr t) b i k) *
        type_mask_nll ty b i k
    else 0

/-- The Monte Carlo sample times: taus = dt_meta * u + dt_offset, where u is
the torch.rand tensor of S uniform draws, modelled as an explicit input. -/
noncomputable def taus {B T S : ℕ} (t : Fin B → Fin (T + 1) → ℝ)
    (src_mask : Fin B → Fin T → Fin T → Bool)
    (u : Fin B → Fin T → Fin T → Fin S → ℝ) :
    Fin B → Fin T → Fin T → Fin S → ℝ :=
  fun b i j s => dt_meta t src_mask b i j * u b i j s + dt_offset t src_mask b i j

/-- The integral sub term of _eval_nll: state_decay at the sampled times,
summed over types, averaged over the Monte Carlo axis, scaled by dt_seq, then
masked_select by the validity mask and summed over steps and batch. -/
noncomputable def integral_term {B T K S : ℕ} (t : Fin B → Fin (T + 1) → ℝ)
    (src_mask : Fin B → Fin T → Fin T → Bool) (mask : Fin B → Fin T → Bool)
    (v_mu : Fin B → Fin T → Fin K → ℝ)
    (v_alpha v_gamma : Fin B → Fin T → Fin T → Fin K → ℝ)
    (u : Fin B → Fin T → Fin T → Fin S → ℝ) : ℝ :=
  ∑ b, ∑ i,
    if mask b i then
      dt_seq t b i *
        ((∑ s, ∑ k, state_decay_mc v_mu v_alpha v_gamma (taus t src_mask u) b i k s)
          / (S : ℝ))
    else 0

/-- The triple returned by _eval_nll, fields in return order. -/
structure NLLResult where
  res : ℝ
  integral : ℝ
  log_sum : ℝ

/-- _eval_nll of InstancewiseSelfAttentiveHawkesProcesses: with log_sum the
log likelihood sub term and integral_ the Monte Carlo integral sub term, the
method returns res = (- log_sum + integral_) / n_batch together with
integral_ / n_batch and (- log_sum) / n_batch. -/
noncomputable def eval_nll {B T K S : ℕ} (t : Fin B → Fin (T + 1) → ℝ)
    (ty : Fin B → Fin (T + 1) → Fin K)
    (src_mask : Fin B → Fin T → Fin T → Bool) (mask : Fin B → Fin T → Bool)
    (v_mu : Fin B → Fin T → Fin K → ℝ)
    (v_alpha v_gamma : Fin B → Fin T → Fin T → Fin K → ℝ)
    (u : Fin B → Fin T → Fin T → Fin S → ℝ) : NLLResult :=
  ⟨(-log_sum_term t ty mask v_mu v_alpha v_gamma +
      integral_term t src_mask mask v_mu v_alpha v_gamma u) / (B : ℝ),
   integral_term t src_mask mask v_mu v_alpha v_gamma u / (B : ℝ),
   -log_sum_term t ty mask v_mu v_alpha v_gamma / (B : ℝ)⟩

/-- torch.mean of one row along its last dimension. -/
noncomputable def tmean (g : List ℝ) : ℝ := g.sum / (g.length : ℝ)

/-- torch.var of one row along its last dimension with the default unbiased
correction: squared deviations from the mean divided by length minus one. -/
noncomputable def tvar (g : List ℝ) : ℝ :=
  (g.map (fun x => (x - tmean g) ^ 2)).sum / ((g.length : ℝ) - 1)

/-- nelement of a reshaped masked selection: the total element count over the
rows of the reshape(n_types, -1) array. -/
def nelement (g : List (List ℝ)) : ℕ := (g.map List.length).sum

/-- The stacked sum of the per row variances of one group. -/
noncomputable def rowvar_sum (g : List (List ℝ)) : ℝ := (g.map tvar).sum

/-- The stacked sum of the per row means of one group. -/
noncomputable def rowmean_sum (g : List (List ℝ)) : ℝ := (g.map tmean).sum

/-- The variance regularizer accumulation of train_epoch over the type history
groups: a group is appended to the stacked sum only when its element count
exceeds n_types, the guard masked_score_array.nelement() > self.n_types. -/
noncomputable def grouptype_reg (n_types : ℕ) (groups : List (List (List ℝ))) : ℝ :=
  ((groups.filter (fun g => decide (n_types < nelement g))).map rowvar_sum).sum

/-- The sparsity regularizer accumulation of train_epoch over the type history
groups, with the same guard. -/
noncomputable def groupsparse_reg (n_types : ℕ) (groups : List (List (List ℝ))) : ℝ :=
  ((groups.filter (fun g => decide (n_types < nelement g))).map rowmean_sum).sum

/-- One hot mask of the types of the first T events,
F.one_hot(batch[:, :-1, 1], n_types), the key side types of get_infectivity. -/
noncomputable def type_mask_j {B T K : ℕ} (ty : Fin B → Fin (T + 1) → Fin K) :
    Fin B → Fin T → Fin K → ℝ :=
  fun b j k => if ty b j.castSucc = k then 1 else 0

/-- One hot mask of the types of the last T events,
F.one_hot(batch[:, 1:, 1], n_types), the query side types of get_infectivity. -/
noncomputable def type_mask_i {B T K : ℕ} (ty : Fin B → Fin (T + 1) → Fin K) :
    Fin B → Fin T → Fin K → ℝ :=
  fun b i k => if ty b i.succ = k then 1 else 0

/-- v_alpha with masked pairs forced to zero,
v_score = v_alpha.masked_fill(src_mask == 0., 0.). -/
noncomputable def v_score_masked {B T K : ℕ}
    (v_alpha : Fin B → Fin T → Fin T → Fin K → ℝ)
    (src_mask : Fin B → Fin T → Fin T → Bool) :
    Fin B → Fin T → Fin T → Fin K → ℝ :=
  fun b i j k => if src_mask b i j then v_alpha b i j k else 0

/-- torch.matmul of the permuted masked score with the repeated query type
mask: entry (b, j, i, i2) sums over types the score of pair (i, j) against the
one hot type of query i2. -/
noncomputable def score_type_matmul {B T K : ℕ}
    (v_alpha : Fin B → Fin T → Fin T → Fin K → ℝ)
    (src_mask : Fin B → Fin T → Fin T → Bool)
    (ty : Fin B → Fin (T + 1) → Fin K) :
    Fin B → Fin T → Fin T → Fin T → ℝ :=
  fun b j i i2 => ∑ k, v_score_masked v_alpha src_mask b i j k * type_mask_i ty b i2 k

/-- v_score_instance, the diagonal of the previous matmul over its last two
dimensions: the score of pair (i, j) at the type of query i itself. -/
noncomputable def v_score_instance {B T K : ℕ}
    (v_alpha : Fin B → Fin T → Fin T → Fin K → ℝ)
    (src_mask : Fin B → Fin T → Fin T → Bool)
    (ty : Fin B → Fin (T + 1) → Fin K) :
    Fin B → Fin T → Fin T → ℝ :=
  fun b j i => score_type_matmul v_alpha src_mask ty b j i i

/-- count_type = torch.triu(torch.ones(b, l, l)): one exactly when the column
index is at least the row index. -/
noncomputable def count_type {B T : ℕ} : Fin B → Fin T → Fin T → ℝ :=
  fun _ j i => if (j : ℕ) ≤ (i : ℕ) then 1 else 0

/-- The per batch aggregation of scores over query types then key types:
v_score_agg of get_infectivity. -/
noncomputable def v_score_agg {B T K : ℕ}
    (v_alpha : Fin B → Fin T → Fin T → Fin K → ℝ)
    (src_mask : Fin B → Fin T → Fin T → Bool)
    (ty : Fin B → Fin (T + 1) → Fin K) :
    Fin B → Fin K → Fin K → ℝ :=
  fun b ki kj =>
    ∑ j, (∑ i, v_score_instance v_alpha src_mask ty b j i * type_mask_i ty b i ki) *
      type_mask_j ty b j kj

/-- The per batch aggregation of the pair counts over query types then key
types: count_agg of get_infectivity. -/
noncomputable def count_agg {B T K : ℕ} (ty : Fin B → Fin (T + 1) → Fin K) :
    Fin B → Fin K → Fin K → ℝ :=
  fun b ki kj =>
    ∑ j, (∑ i, count_type (B := B) (T := T) b j i * type_mask_i ty b i ki) *
      type_mask_j ty b j kj

/-- get_infectivity for a dataloader holding this single batch: the summed
score aggregate A divided entrywise by the summed pair counts plus one,
A / (type_counts + 1). -/
noncomputable def get_infectivity {B T K : ℕ}
    (v_alpha : Fin B → Fin T → Fin T → Fin K → ℝ)
    (src_mask : Fin B → Fin T → Fin T → Bool)
    (ty : Fin B → Fin (T + 1) → Fin K) :
    Fin K → Fin K → ℝ :=
  fun ki kj =>
    (∑ b, v_score_agg v_alpha src_mask ty b ki kj) /
      ((∑ b, count_agg ty b ki kj) + 1)

/-- Modelled from the wording of the specification for comparison: the same
aggregate normalized by the pairwise occurrence count itself, without the
plus one.  This is the comparison definition for claim C9 and is not
translated from the source. -/
noncomputable def get_infectivity_spec {B T K : ℕ}
    (v_alpha : Fin B → Fin T → Fin T → Fin K → ℝ)
    (src_mask : Fin B → Fin T → Fin T → Bool)
    (ty : Fin B → Fin (T + 1) → Fin K) :
    Fin K → Fin K → ℝ :=
  fun ki kj =>
    (∑ b, v_score_agg v_alpha src_mask ty b ki kj) /
      (∑ b, count_agg ty b ki kj)

section Claims

/-- Concrete excitation tensor for the comparison of the two state_decay
readings: it is nonzero only at query 0, key 1. -/
noncomputable def c1_alpha : Fin 1 → Fin 2 → Fin 2 → Fin 1 → ℝ :=
  fun _ i j _ => if (i : ℕ) = 0 ∧ (j : ℕ) = 1 then 1 else 0

/-- Concrete decay tensor, constantly one. -/
noncomputable def c1_gamma : Fin 1 → Fin 2 → Fin 2 → Fin 1 → ℝ := fun _ _ _ _ => 1

/-- Concrete background tensor, constantly zero. -/
noncomputable def c1_mu : Fin 1 → Fin 2 → Fin 1 → ℝ := fun _ _ _ => 0

/-- Concrete elapsed time tensor, constantly zero. -/
noncomputable def c1_dt : Fin 1 → Fin 2 → Fin 2 → ℝ := fun _ _ _ => 0

/-- C1 counterexample: at an excitation tensor supported only at query
position 0 and key position 1, the source state_decay, which sums over axis
-3, dimension 1 of the rank four product, differs from the formula of the
claim, whose sum runs over the key position axis. -/
theorem C1_counterexample :
    state_decay c1_mu c1_alpha c1_gamma c1_dt 0 0 0 ≠
      state_decay_spec c1_mu c1_alpha c1_gamma c1_dt 0 0 0 := by
  have hL : state_decay c1_mu c1_alpha c1_gamma c1_dt 0 0 0 = Real.tanh 0 := by
    unfold state_decay sum_dim1 mul4 exp4 neg4 unsqueeze_last c1_mu c1_alpha c1_gamma c1_dt
    norm_num [Fin.sum_univ_two]
  have hR : state_decay_spec c1_mu c1_alpha c1_gamma c1_dt 0 0 0 = Real.tanh 1 := by
    unfold state_decay_spec c1_mu c1_alpha c1_gamma c1_dt
    rw [Fin.sum_univ_two]
    norm_num
  rw [hL, hR, Real.tanh_zero]
  exact ne_of_lt (tanh_pos one_pos)

/-- C1 amended: state_decay returns the tensor whose entry at key position j
and type k equals tanh of mu[j, k] plus the sum over the first pairwise axis
i, the query axis at this rank, of
alpha[i, j, k] * gamma[i, j, k] * exp(-gamma[i, j, k] * dt[i, j]);
torch.sum(..., -3) runs over dimension 1 of the rank four product, not over
the key position axis. -/
theorem C1_amended_state_decay_formula {B T K : ℕ}
    (v_mu : Fin B → Fin T → Fin K → ℝ)
    (v_alpha v_gamma : Fin B → Fin T → Fin T → Fin K → ℝ)
    (dt0 : Fin B → Fin T → Fin T → ℝ) (b : Fin B) (j : Fin T) (k : Fin K) :
    state_decay v_mu v_alpha v_gamma dt0 b j k =
      Real.tanh (v_mu b j k + ∑ i, v_alpha b i j k * v_gamma b i j k *
        Real.exp (-v_gamma b i j k * dt0 b i j)) := by
  unfold state_decay sum_dim1 mul4 exp4 neg4 unsqueeze_last
  rfl

/-- C4: the combined causal and padding mask of MaskBatch.make_std_mask is
true exactly when both endpoints are non pad positions and the key index does
not exceed the query index; in particular it is false whenever j > i or
either of i, j holds the pad value. -/
theorem C4_make_std_mask {α : Type} [DecidableEq α] {B L : ℕ}
    (tgt : Fin B → Fin L → α) (pad : α) (b : Fin B) (i j : Fin L) :
    MaskBatch.make_std_mask tgt pad b i j = true ↔
      (tgt b i ≠ pad ∧ tgt b j ≠ pad ∧ (j : ℕ) ≤ (i : ℕ)) := by
  unfold MaskBatch.make_std_mask MaskBatch.padding_valid subsequent_mask
  simp only [Bool.and_eq_true, Bool.not_eq_true', decide_eq_true_eq,
    decide_eq_false_iff_not]
  constructor
  · rintro ⟨⟨hj, hi⟩, hs⟩
    exact ⟨hi, hj, by omega⟩
  · rintro ⟨hi, hj, hle⟩
    exact ⟨⟨hj, hi⟩, by omega⟩

/-- Witness for C4 at a concrete batch: one sequence of length two whose
second entry is the pad value. -/
theorem C4_make_std_mask_witness :
    (MaskBatch.make_std_mask
        (fun (_ : Fin 1) (p : Fin 2) => if p = 0 then (5 : ℚ) else 0) 0 0 0 0 = true ↔
      ((if (0 : Fin 2) = 0 then (5 : ℚ) else 0) ≠ 0 ∧
        (if (0 : Fin 2) = 0 then (5 : ℚ) else 0) ≠ 0 ∧
        ((0 : Fin 2) : ℕ) ≤ (((0 : Fin 2)) : ℕ))) :=
  C4_make_std_mask (fun _ p => if p = 0 then (5 : ℚ) else 0) 0 0 0 0

/-- C6: constructing the model with hidden_size not divisible by num_head
fails the constructor assert of the multi head projector, so construction
aborts before any forward pass and no model value is produced. -/
theorem C6_init_requires_divisibility (n e hs nh : ℕ) (h : hs % nh ≠ 0) :
    isahp_init n e hs nh = none := by
  unfold isahp_init MultiHeadedAttention.init_ok
  simp [h]

/-- Witness for C6 at the scenario of the specification: hidden size 3 with 2
heads does not divide evenly and construction fails. -/
theorem C6_init_requires_divisibility_witness :
    3 % 2 ≠ 0 ∧ isahp_init 3 2 3 2 = none :=
  ⟨by decide, C6_init_requires_divisibility 3 2 3 2 (by decide)⟩

/-- C7: every entry of state_decay lies strictly inside the open interval
from -1 to 1, for all real inputs. -/
theorem C7_state_decay_open_interval {B T K : ℕ}
    (v_mu : Fin B → Fin T → Fin K → ℝ)
    (v_alpha v_gamma : Fin B → Fin T → Fin T → Fin K → ℝ)
    (dt0 : Fin B → Fin T → Fin T → ℝ) (b : Fin B) (j : Fin T) (k : Fin K) :
    -1 < state_decay v_mu v_alpha v_gamma dt0 b j k ∧
      state_decay v_mu v_alpha v_gamma dt0 b j k < 1 := by
  unfold state_decay
  exact ⟨neg_one_lt_tanh _, tanh_lt_one _⟩

/-- C10: a query position whose mask row is entirely false receives an
identically zero attention probability row after the final masked_fill, the
row sums to zero rather than one, and the attended output vector at that
position is the zero vector. -/
theorem C10_all_false_mask_row {B H T D : ℕ}
    (query key value : Fin B → Fin H → Fin T → Fin D → ℝ)
    (mask : Fin B → Fin T → Fin T → Bool) (b : Fin B) (h : Fin H) (i : Fin T)
    (hrow : ∀ j, mask b i j = false) :
    (∀ j, Attention.p_attn query key mask b h i j = 0) ∧
      (∑ j, Attention.p_attn query key mask b h i j) = 0 ∧
      (∀ c, Attention.attn_output query key value mask b h i c = 0) := by
  have hz : ∀ j, Attention.p_attn query key mask b h i j = 0 := by
    intro j
    unfold Attention.p_attn
    rw [hrow j]
    simp
  refine ⟨hz, ?_, ?_⟩
  · simp [hz]
  · intro c
    unfold Attention.attn_output
    simp [hz]

/-- Witness for C10 at a concrete two position instance whose mask is false
everywhere. -/
theorem C10_all_false_mask_row_witness :
    (∀ j, Attention.p_attn
        (fun _ _ _ _ => (0 : ℝ) : Fin 1 → Fin 1 → Fin 2 → Fin 1 → ℝ)
        (fun _ _ _ _ => (0 : ℝ)) (fun _ _ _ => false) 0 0 0 j = 0) ∧
      (∑ j, Attention.p_attn
        (fun _ _ _ _ => (0 : ℝ) : Fin 1 → Fin 1 → Fin 2 → Fin 1 → ℝ)
        (fun _ _ _ _ => (0 : ℝ)) (fun _ _ _ => false) 0 0 0 j) = 0 ∧
      (∀ c, Attention.attn_output
        (fun _ _ _ _ => (0 : ℝ) : Fin 1 → Fin 1 → Fin 2 → Fin 1 → ℝ)
        (fun _ _ _ _ => (0 : ℝ)) (fun _ _ _ _ => (0 : ℝ))
        (fun _ _ _ => false) 0 0 0 c = 0) :=
  C10_all_false_mask_row (fun _ _ _ _ => (0 : ℝ)) (fun _ _ _ _ => (0 : ℝ))
    (fun _ _ _ _ => (0 : ℝ)) (fun _ _ _ => false) 0 0 0 (fun _ => rfl)

end Claims

/-- Helper: every entry of mha_v_alpha is nonnegative, being either zero at a
masked pair or a Softplus value. -/
theorem mha_v_alpha_nonneg {B T m dk K : ℕ} (w : MultiHeadedAttention.Weights m dk K)
    (x_q x_k x_v : Fin B → Fin T → Fin (2 * m * dk) → ℝ)
    (mask : Fin B → Fin T → Fin T → Bool)
    (b : Fin B) (x y : Fin T) (k : Fin K) :
    0 ≤ MultiHeadedAttention.mha_v_alpha w x_q x_k x_v mask b x y k := by
  unfold MultiHeadedAttention.mha_v_alpha
  split
  · exact softplus_nonneg one_pos _
  · exact le_refl 0

/-- Helper: every entry of mha_v_gamma is nonnegative. -/
theorem mha_v_gamma_nonneg {B T m dk K : ℕ} (w : MultiHeadedAttention.Weights m dk K)
    (x_q x_k x_v : Fin B → Fin T → Fin (2 * m * dk) → ℝ)
    (mask : Fin B → Fin T → Fin T → Bool)
    (b : Fin B) (x y : Fin T) (k : Fin K) :
    0 ≤ MultiHeadedAttention.mha_v_gamma w x_q x_k x_v mask b x y k := by
  unfold MultiHeadedAttention.mha_v_gamma
  split
  · exact softplus_nonneg (by norm_num) _
  · exact le_refl 0

section Claims2

/-- C5 counterexample: num_head = 1 divides hidden_size = 3, the configuration
the claim calls valid and the one the specification scenario names, yet the
trailing width of the empty first half of heads fed to alpha_layer is 0 while
the declared in_features of alpha_layer is 1, so forward raises a shape error
instead of returning tensors of the stated shapes. -/
theorem C5_counterexample :
    MultiHeadedAttention.init_ok 1 3 = true ∧
      MultiHeadedAttention.forward_widths_ok 1 3 = false := by
  decide

/-- C5 amended: for an even head count 2 * m and hidden size 2 * m * dk the
fed branch widths agree with the declared in_features of alpha_layer and
gamma_layer, so forward runs; the typing of isahp_forward gives mu the shape
(B, T, K) and alpha, gamma the shape (B, T, T, K) for a padded batch of T + 1
events; and every entry of alpha and of gamma is nonnegative. -/
theorem C5_amended_forward_shapes_nonneg {B T m dk K : ℕ}
    (w : MultiHeadedAttention.Weights m dk K)
    (We : Fin (2 * m * dk - 1) → Fin K → ℝ)
    (t : Fin B → Fin (T + 1) → ℝ) (ty : Fin B → Fin (T + 1) → Fin K)
    (src_mask : Fin B → Fin T → Fin T → Bool) :
    MultiHeadedAttention.forward_widths_ok (2 * m) (2 * m * dk) = true ∧
      (∀ b x y k, 0 ≤ (isahp_forward w We t ty src_mask).2.1 b x y k) ∧
      (∀ b x y k, 0 ≤ (isahp_forward w We t ty src_mask).2.2 b x y k) := by
  refine ⟨?_, ?_, ?_⟩
  · unfold MultiHeadedAttention.forward_widths_ok MultiHeadedAttention.alpha_fed_width
      MultiHeadedAttention.gamma_fed_width MultiHeadedAttention.halfhead_in_features
    set q := MultiHeadedAttention.d_k_of (2 * m) (2 * m * dk)
    have h2 : 2 * m / 2 = m := by omega
    have h3 : q * (2 * m) / 2 = m * q := by
      have hq : q * (2 * m) = 2 * (m * q) := by ring
      rw [hq, Nat.mul_div_cancel_left (m * q) (by omega : 0 < 2)]
    rw [h3, h2]
    have h5 : 2 * m - m = m := by omega
    rw [h5]
    simp
  · intro b x y k
    exact mha_v_alpha_nonneg w _ _ _ src_mask b x y k
  · intro b x y k
    exact mha_v_gamma_nonneg w _ _ _ src_mask b x y k

/-- C8 counterexample: with two event types, a type history group holding
exactly two elements, given as the rows of its reshape, does not have fewer
elements than the number of types, yet the guard nelement > n_types skips it:
the sparsity accumulation over the single group is zero although the group
would contribute the nonzero sum of its row means. -/
theorem C8_counterexample :
    groupsparse_reg 2 [[[1], [2]]] = 0 ∧ rowmean_sum [[1], [2]] ≠ 0 := by
  constructor
  · unfold groupsparse_reg nelement
    simp
  · unfold rowmean_sum tmean
    norm_num

/-- C8 amended: during the regularizer accumulation of train_epoch a type
history group is skipped, contributing nothing to either regularizer, exactly
when its element count is at most n_types, the complement of the strict guard
nelement > n_types; a group with strictly more than n_types elements
contributes its stacked row variances and stacked row means. -/
theorem C8_amended_group_threshold (n_types : ℕ) (g : List (List ℝ))
    (groups : List (List (List ℝ))) :
    (nelement g ≤ n_types →
      grouptype_reg n_types (g :: groups) = grouptype_reg n_types groups ∧
        groupsparse_reg n_types (g :: groups) = groupsparse_reg n_types groups) ∧
    (n_types < nelement g →
      grouptype_reg n_types (g :: groups) =
          rowvar_sum g + grouptype_reg n_types groups ∧
        groupsparse_reg n_types (g :: groups) =
          rowmean_sum g + groupsparse_reg n_types groups) := by
  constructor
  · intro hle
    have hd : decide (n_types < nelement g) = false := by
      simp only [decide_eq_false_iff_not]
      omega
    unfold grouptype_reg groupsparse_reg
    rw [List.filter_cons]
    simp [hd]
  · intro hlt
    have hd : decide (n_types < nelement g) = true := by
      simpa using hlt
    unfold grouptype_reg groupsparse_reg
    rw [List.filter_cons]
    simp [hd]

end Claims2

section Claims3

/-- Zero query and key tensors for the C3 instance. -/
noncomputable def c3_qk : Fin 1 → Fin 1 → Fin 2 → Fin 1 → ℝ := fun _ _ _ _ => 0

/-- Causal mask over two positions, both valid, for the C3 instance. -/
def c3_mask : Fin 1 → Fin 2 → Fin 2 → Bool := fun _ i j => decide ((j : ℕ) ≤ (i : ℕ))

/-- C3 counterexample: with one head, two valid positions and zero query and
key, the attention probability row of the first query position, a valid
non pad position, sums to 1 / (1 + exp (-1e9)): the sentinel mass of the
masked future key stays in the softmax denominator, so the row does not sum
to exactly one. -/
theorem C3_counterexample :
    (∑ j, Attention.p_attn c3_qk c3_qk c3_mask 0 0 0 j) ≠ 1 := by
  have hrow : (∑ j, Attention.p_attn c3_qk c3_qk c3_mask 0 0 0 j) =
      1 / (1 + Real.exp (-1e9)) := by
    unfold Attention.p_attn Attention.softmax_last Attention.masked_scores
      Attention.scores c3_qk c3_mask
    rw [Fin.sum_univ_two]
    simp [Fin.sum_univ_two]
  have hlt : 1 / (1 + Real.exp (-1e9)) < 1 := by
    rw [div_lt_one (by positivity)]
    have := Real.exp_pos (-1e9)
    linarith
  rw [hrow]
  exact ne_of_lt hlt

/-- C3 amended: entries of an attention probability row at masked keys are
exactly zero after the final masked_fill; the row sum never exceeds one, and
it equals one exactly when every key of the row is allowed; whenever at least
one key is masked the row sum falls strictly below one, because the sentinel
score -1e9 leaves the mass exp (-1e9) of each masked key inside the softmax
denominator, so rows of valid query positions with masked keys do not sum to
exactly one. -/
theorem C3_amended_attention_rows {B H T D : ℕ}
    (query key : Fin B → Fin H → Fin T → Fin D → ℝ)
    (mask : Fin B → Fin T → Fin T → Bool) (b : Fin B) (h : Fin H) (i : Fin T) :
    (∀ j, mask b i j = false → Attention.p_attn query key mask b h i j = 0) ∧
      (∑ j, Attention.p_attn query key mask b h i j) ≤ 1 ∧
      ((∀ j, mask b i j = true) →
        (∑ j, Attention.p_attn query key mask b h i j) = 1) ∧
      (∀ j0, mask b i j0 = false →
        (∑ j, Attention.p_attn query key mask b h i j) < 1) := by
  set E : Fin T → ℝ :=
    fun j => Real.exp (Attention.masked_scores query key mask b h i j) with hE
  have hDpos : 0 < ∑ l, E l :=
    Finset.sum_pos (fun l _ => Real.exp_pos _) ⟨i, Finset.mem_univ i⟩
  have hp : ∀ j, Attention.p_attn query key mask b h i j =
      if mask b i j then E j / ∑ l, E l else 0 := by
    intro j
    rfl
  have hsum : (∑ j, Attention.p_attn query key mask b h i j) =
      (∑ j, if mask b i j then E j else 0) / ∑ l, E l := by
    rw [Finset.sum_div]
    refine Finset.sum_congr rfl ?_
    intro j _
    rw [hp j]
    split
    · rfl
    · rw [zero_div]
  refine ⟨?_, ?_, ?_, ?_⟩
  · intro j hj
    rw [hp j, hj]
    simp
  · rw [hsum, div_le_one hDpos]
    refine Finset.sum_le_sum ?_
    intro j _
    split
    · exact le_refl _
    · exact (Real.exp_pos _).le
  · intro hall
    rw [hsum]
    have hfull : (∑ j, if mask b i j then E j else 0) = ∑ l, E l := by
      refine Finset.sum_congr rfl ?_
      intro j _
      rw [hall j]
      simp
    rw [hfull]
    exact div_self (ne_of_gt hDpos)
  · intro j0 hj0
    rw [hsum, div_lt_one hDpos]
    have hj0pos : (0 : ℝ) < E j0 := Real.exp_pos _
    refine Finset.sum_lt_sum ?_ ⟨j0, Finset.mem_univ j0, ?_⟩
    · intro j _
      split
      · exact le_refl _
      · exact (Real.exp_pos _).le
    · rw [hj0]
      simpa using hj0pos

end Claims3

/-- Helper: v_score_instance collapses to the masked alpha entry at the type
of the query event itself. -/
theorem v_score_instance_eq {B T K : ℕ}
    (v_alpha : Fin B → Fin T → Fin T → Fin K → ℝ)
    (src_mask : Fin B → Fin T → Fin T → Bool)
    (ty : Fin B → Fin (T + 1) → Fin K) (b : Fin B) (j i : Fin T) :
    v_score_instance v_alpha src_mask ty b j i =
      if src_mask b i j then v_alpha b i j (ty b i.succ) else 0 := by
  unfold v_score_instance score_type_matmul v_score_masked type_mask_i
  simp only [mul_ite, mul_one, mul_zero]
  rw [Finset.sum_ite_eq]
  simp

section Claims4

/-- Constant excitation tensor for the C9 instance. -/
noncomputable def c9_alpha : Fin 1 → Fin 1 → Fin 1 → Fin 1 → ℝ := fun _ _ _ _ => 2

/-- All true source mask for the C9 instance. -/
def c9_mask : Fin 1 → Fin 1 → Fin 1 → Bool := fun _ _ _ => true

/-- Single type assignment for the C9 instance. -/
def c9_ty : Fin 1 → Fin 2 → Fin 1 := fun _ _ => 0

/-- C9 counterexample: on one sequence of two events of the single type, with
excitation constantly two, the aggregated masked alpha mass is 2 and the pair
count is 1, so get_infectivity returns 2 / (1 + 1) = 1 while dividing by the
number of pairwise occurrences itself would return 2 / 1 = 2: the code
normalizes by the count plus one, not by the count. -/
theorem C9_counterexample :
    get_infectivity c9_alpha c9_mask c9_ty 0 0 ≠
      get_infectivity_spec c9_alpha c9_mask c9_ty 0 0 := by
  have hL : get_infectivity c9_alpha c9_mask c9_ty 0 0 = 1 := by
    unfold get_infectivity v_score_agg v_score_instance score_type_matmul
      v_score_masked type_mask_i type_mask_j count_agg count_type c9_alpha c9_mask c9_ty
    simp [Fin.sum_univ_one]
    norm_num [type_mask_i, type_mask_j]
  have hR : get_infectivity_spec c9_alpha c9_mask c9_ty 0 0 = 2 := by
    unfold get_infectivity_spec v_score_agg v_score_instance score_type_matmul
      v_score_masked type_mask_i type_mask_j count_agg count_type c9_alpha c9_mask c9_ty
    simp [Fin.sum_univ_one]
    norm_num [type_mask_i, type_mask_j]
  rw [hL, hR]
  norm_num

/-- C9 amended: each cell of get_infectivity equals the aggregated masked
alpha contributions, summed over the pairs whose query event has the target
type and whose key event has the source type, divided by the number of
pairwise occurrences of that type pair plus one, not by the count itself. -/
theorem C9_amended_infectivity {B T K : ℕ}
    (v_alpha : Fin B → Fin T → Fin T → Fin K → ℝ)
    (src_mask : Fin B → Fin T → Fin T → Bool)
    (ty : Fin B → Fin (T + 1) → Fin K) (ki kj : Fin K) :
    get_infectivity v_alpha src_mask ty ki kj =
      (∑ b, ∑ j : Fin T, ∑ i : Fin T,
        if ty b i.succ = ki ∧ ty b j.castSucc = kj ∧ src_mask b i j = true
        then v_alpha b i j ki else 0) /
      ((∑ b, ∑ j : Fin T, ∑ i : Fin T,
        if ty b i.succ = ki ∧ ty b j.castSucc = kj ∧ (j : ℕ) ≤ (i : ℕ)
        then (1 : ℝ) else 0) + 1) := by
  unfold get_infectivity
  congr 1
  · refine Finset.sum_congr rfl ?_
    intro b _
    unfold v_score_agg
    refine Finset.sum_congr rfl ?_
    intro j _
    rw [Finset.sum_mul]
    refine Finset.sum_congr rfl ?_
    intro i _
    rw [v_score_instance_eq]
    unfold type_mask_i type_mask_j
    by_cases h1 : ty b i.succ = ki <;> by_cases h2 : ty b j.castSucc = kj <;>
      by_cases h3 : src_mask b i j <;> simp [h1, h2, h3]
  · congr 1
    refine Finset.sum_congr rfl ?_
    intro b _
    unfold count_agg count_type
    refine Finset.sum_congr rfl ?_
    intro j _
    rw [Finset.sum_mul]
    refine Finset.sum_congr rfl ?_
    intro i _
    unfold type_mask_i type_mask_j
    by_cases h1 : ty b i.succ = ki <;> by_cases h2 : ty b j.castSucc = kj <;>
      by_cases h3 : (j : ℕ) ≤ (i : ℕ) <;> simp [h1, h2, h3]

end Claims4

section Claims5

/-- Timestamps 0 then 1 for the C2 instance. -/
noncomputable def c2_t : Fin 1 → Fin 2 → ℝ := fun _ p => if p = 0 then 0 else 1

/-- Single type assignment for the C2 instance. -/
def c2_ty : Fin 1 → Fin 2 → Fin 1 := fun _ _ => 0

/-- All true source mask for the C2 instance. -/
def c2_srcmask : Fin 1 → Fin 1 → Fin 1 → Bool := fun _ _ _ => true

/-- All true validity mask for the C2 instance. -/
def c2_mask : Fin 1 → Fin 1 → Bool := fun _ _ => true

/-- Constant one background tensor for the C2 instance. -/
noncomputable def c2_mu : Fin 1 → Fin 1 → Fin 1 → ℝ := fun _ _ _ => 1

/-- Zero rank four tensor for the C2 instance, used for the excitation, the
decay and the Monte Carlo draws. -/
noncomputable def c2_zero4 : Fin 1 → Fin 1 → Fin 1 → Fin 1 → ℝ := fun _ _ _ _ => 0

/-- C2 counterexample: on one sequence of two events with unit background,
zero excitation and decay and a single Monte Carlo draw, the log likelihood
sub term is log (tanh 1), a negative number, while the third return value of
_eval_nll is minus that sub term divided by the batch size; the two differ,
so _eval_nll does not return the log likelihood sub term itself. -/
theorem C2_counterexample :
    (eval_nll c2_t c2_ty c2_srcmask c2_mask c2_mu c2_zero4 c2_zero4 c2_zero4).log_sum ≠
      log_sum_term c2_t c2_ty c2_mask c2_mu c2_zero4 c2_zero4 := by
  have hS : log_sum_term c2_t c2_ty c2_mask c2_mu c2_zero4 c2_zero4 =
      Real.log (Real.tanh 1) := by
    unfold log_sum_term type_mask_nll state_decay sum_dim1 mul4 exp4 neg4
      unsqueeze_last c2_t c2_ty c2_mask c2_mu c2_zero4
    simp [Fin.sum_univ_one]
  have hlog : Real.log (Real.tanh 1) < 0 :=
    Real.log_neg (tanh_pos one_pos) (tanh_lt_one 1)
  have hval : (eval_nll c2_t c2_ty c2_srcmask c2_mask c2_mu c2_zero4 c2_zero4
      c2_zero4).log_sum =
      -Real.log (Real.tanh 1) / ((1 : ℕ) : ℝ) := by
    show -log_sum_term c2_t c2_ty c2_mask c2_mu c2_zero4 c2_zero4 / ((1 : ℕ) : ℝ) = _
    rw [hS]
  rw [hval, hS, Nat.cast_one, div_one]
  intro habs
  linarith

/-- C2 amended: the first return value of _eval_nll is
(- logLikelihoodSum + integralSum) / batchSize as the claim states; the other
two return values are integralSum / batchSize and
(- logLikelihoodSum) / batchSize, the negated and batch averaged sub terms
rather than the raw sub terms themselves; and logLikelihoodSum is the sum,
over the batch and the valid steps, of the log intensity at the true event
type. -/
theorem C2_amended_eval_nll {B T K S : ℕ} (t : Fin B → Fin (T + 1) → ℝ)
    (ty : Fin B → Fin (T + 1) → Fin K)
    (src_mask : Fin B → Fin T → Fin T → Bool) (mask : Fin B → Fin T → Bool)
    (v_mu : Fin B → Fin T → Fin K → ℝ)
    (v_alpha v_gamma : Fin B → Fin T → Fin T → Fin K → ℝ)
    (u : Fin B → Fin T → Fin T → Fin S → ℝ) :
    (eval_nll t ty src_mask mask v_mu v_alpha v_gamma u).res =
      (-log_sum_term t ty mask v_mu v_alpha v_gamma +
        integral_term t src_mask mask v_mu v_alpha v_gamma u) / (B : ℝ) ∧
      (eval_nll t ty src_mask mask v_mu v_alpha v_gamma u).integral =
        integral_term t src_mask mask v_mu v_alpha v_gamma u / (B : ℝ) ∧
      (eval_nll t ty src_mask mask v_mu v_alpha v_gamma u).log_sum =
        -log_sum_term t ty mask v_mu v_alpha v_gamma / (B : ℝ) ∧
      log_sum_term t ty mask v_mu v_alpha v_gamma =
        ∑ b : Fin B, ∑ i : Fin T,
          if mask b i then
            Real.log (state_decay v_mu v_alpha v_gamma (dt_arr t) b i (ty b i.succ))
          else 0 := by
  refine ⟨rfl, rfl, rfl, ?_⟩
  unfold log_sum_term type_mask_nll
  refine Finset.sum_congr rfl ?_
  intro b _
  refine Finset.sum_congr rfl ?_
  intro i _
  by_cases hm : mask b i
  · simp only [hm, if_true]
    simp only [mul_ite, mul_one, mul_zero]
    rw [Finset.sum_ite_eq]
    simp
  · simp [hm]

end Claims5

end ISAHP
